import Mathlib

/-!
Verification of the credential-generation / balance-aggregation pipeline in
wallet_gen.py.

Embedding conventions:
* Python Decimal values (the script sets a precision of 36 digits, far more
  than any quantity handled here needs) are modeled as exact rationals.
  The float round-trips float(Decimal(x)) / Decimal(str(x)) in the source
  are the identity on the short decimal literals involved and are elided.
* Python dicts keyed by strings are modeled as association lists with
  overwrite-on-insert semantics (dictInsert / dictGet below).
* Every network fetch in the source wraps its body in try/except and turns
  any timeout, malformed body, rate limit or transport error into None
  (or 0 for the nonce fetch).  Those fetches are therefore modeled by
  passing their observable outcome in as an Option (or a Nat already
  defaulted to 0), which is exactly the interface check_single_wallet sees.
* The external cryptographic libraries (mnemonic.to_seed, key_from_seed,
  Account.from_key) are pure functions not part of this repository; they
  appear as explicit function parameters, so theorems about derivation are
  quantified over every possible (deterministic) implementation of them.
-/

set_option autoImplicit false

namespace WalletGen

/-- Association-list model of a Python dict from upper-cased coin symbols to
amounts; d.get(k, 0.0). -/
def dictGet : List (String × ℚ) → String → ℚ
  | [], _ => 0
  | (k0, v) :: rest, k => if k0 = k then v else dictGet rest k

/-- Association-list model of d[k] = v: overwrite the existing binding if the
key is present, otherwise append the new binding. -/
def dictInsert : List (String × ℚ) → String → ℚ → List (String × ℚ)
  | [], k, v => [(k, v)]
  | (k0, v0) :: rest, k, v =>
      if k0 = k then (k0, v) :: rest else (k0, v0) :: dictInsert rest k v

/-- str.upper() on the ASCII symbol strings the API returns, written
character-wise (rather than through String.toUpper, whose byte-level loop
does not evaluate under the kernel). -/
def strUpper (s : String) : String := String.mk (s.data.map Char.toUpper)

/-- One entry of the token-holdings (DeBank) response body: the source reads
t.get("symbol") (None/missing modeled as ""), t.get("amount", 0) and
t.get("price") (missing modeled as none).  Entries whose amount or price do
not parse as numbers are skipped by the per-entry try/except in the source;
entries are modeled already parsed. -/
structure DebankEntry where
  symbol : String
  amount : ℚ
  price : Option ℚ
deriving DecidableEq

/-- The value fetch_debank_for_address returns on success:
coins maps upper-cased symbols to amounts, balance_usd is the Decimal
total of amount*price over the kept entries. -/
structure DebankSample where
  coins : List (String × ℚ)
  balance_usd : ℚ
deriving DecidableEq

/-- Loop body of fetch_debank_for_address over the response entries:
sym = (t.get("symbol") or "").upper(); keep the entry when amount > 0 and
sym is nonempty; then coins[sym] = amount (overwriting) and
total_usd += amount * price. -/
def debankFoldStep (acc : List (String × ℚ) × ℚ) (t : DebankEntry) :
    List (String × ℚ) × ℚ :=
  let sym := strUpper t.symbol
  if 0 < t.amount ∧ sym ≠ "" then
    (dictInsert acc.1 sym t.amount, acc.2 + t.amount * t.price.getD 0)
  else acc

/-- fetch_debank_for_address: returns none when no access key is configured,
when the HTTP status is 429 or any non-200, or when the request / JSON
decoding raises (all of those are resp = none); otherwise folds the entry
list into a DebankSample. -/
def fetch_debank_for_address (hasAccessKey : Bool)
    (resp : Option (List DebankEntry)) : Option DebankSample :=
  if hasAccessKey then
    match resp with
    | none => none
    | some items =>
        let p := items.foldl debankFoldStep ([], 0)
        some { coins := p.1, balance_usd := p.2 }
  else none

/-- Observable outcome of the two per-chain RPC calls for one configured
chain: fetch_native_balance_for_chain returns the wei balance divided by
10^18 or None on any exception (bal), and fetch_nonce_for_chain returns the
transaction count or 0 on any exception (nonce). -/
structure ChainObs where
  chain : String
  native_symbol : String
  bal : Option ℚ
  nonce : ℕ
deriving DecidableEq

/-- Mutable state of the per-chain loop inside check_single_wallet:
result["coins"], result["chains"], max_nonce and has_value. -/
structure MergeAcc where
  coins : List (String × ℚ)
  chains : List String
  maxNonce : ℕ
  hasValue : Bool
deriving DecidableEq

/-- One iteration of the per-chain loop in check_single_wallet.  The source
guard is: if bal and bal > 0 — which for a float is exactly: the balance
fetch succeeded and returned a strictly positive value.  In that case the
native balance is added (not assigned) to any existing entry for the native
symbol, the chain is recorded and has_value is set.  Independently the
running maximum nonce is updated. -/
def mergeChainObs (acc : MergeAcc) (obs : ChainObs) : MergeAcc :=
  let acc1 :=
    match obs.bal with
    | some b =>
        if 0 < b then
          { coins := dictInsert acc.coins obs.native_symbol
              (dictGet acc.coins obs.native_symbol + b),
            chains := acc.chains ++ [obs.chain],
            maxNonce := acc.maxNonce,
            hasValue := true }
        else acc
    | none => acc
  if acc1.maxNonce < obs.nonce then { acc1 with maxNonce := obs.nonce } else acc1

/-- DerivedAccount as built by wallet_from_phrase. -/
structure Wallet where
  address : String
  private_key : String
  phrase : String
deriving DecidableEq

/-- The record check_single_wallet builds (and returns when has_value holds);
this is also the shape appended to the FOUND store. -/
structure CheckResult where
  address : String
  private_key : String
  phrase : String
  balance_usd : ℚ
  coins : List (String × ℚ)
  chains : List String
  nonce : ℕ
  found_at : String
deriving DecidableEq

/-- State of result["coins"], result["chains"], max_nonce and has_value after
the DeBank branch of check_single_wallet and before the per-chain loop.  The
source is: if debank_data: coins = debank_data.get("coins", {});
balance_usd = debank_data.get("balance_usd", 0.0);
if coins or balance_usd > 0: result["coins"].update(coins); has_value = True. -/
def debankInitAcc : Option DebankSample → MergeAcc
  | some d =>
      if d.coins ≠ [] ∨ 0 < d.balance_usd then
        { coins := d.coins, chains := [], maxNonce := 0, hasValue := true }
      else { coins := [], chains := [], maxNonce := 0, hasValue := false }
  | none => { coins := [], chains := [], maxNonce := 0, hasValue := false }

/-- result["balance_usd"] after the DeBank branch: assigned from the sample
exactly when the branch fires, otherwise it keeps its initial 0.0, and the
per-chain loop never touches it. -/
def debankBusd : Option DebankSample → ℚ
  | some d => if d.coins ≠ [] ∨ 0 < d.balance_usd then d.balance_usd else 0
  | none => 0

/-- check_single_wallet.  debank is the outcome of fetch_debank_for_address,
chainObs the outcomes of the per-chain RPC calls (the loop over
web3_clients.items()), now the datetime.now().isoformat() timestamp.
After the DeBank branch (debankInitAcc / debankBusd) the per-chain loop
runs, then: if max_nonce > 0: has_value = True, and the result is returned
when has_value holds and None otherwise. -/
def check_single_wallet (wallet : Wallet) (debank : Option DebankSample)
    (chainObs : List ChainObs) (now : String) : Option CheckResult :=
  let m := chainObs.foldl mergeChainObs (debankInitAcc debank)
  if m.hasValue = true ∨ 0 < m.maxNonce then
    some { address := wallet.address, private_key := wallet.private_key,
           phrase := wallet.phrase, balance_usd := debankBusd debank,
           coins := m.coins, chains := m.chains, nonce := m.maxNonce,
           found_at := now }
  else none

/-- True when some configured chain reported a strictly positive native
balance. -/
def anyPosBal (cs : List ChainObs) : Bool :=
  cs.any fun obs =>
    match obs.bal with
    | some b => decide (0 < b)
    | none => false

/-- The maximum nonce observed across the chain calls, computed the way the
source loop does (max_nonce starts at 0; failed nonce fetches contribute 0). -/
def maxNonceOf (cs : List ChainObs) : ℕ :=
  cs.foldl (fun m obs => if m < obs.nonce then obs.nonce else m) 0

/-- Total native balance reported for symbol s across the chain calls,
counting exactly the calls the merge loop accepts (successful and strictly
positive). -/
def chainSum : List ChainObs → String → ℚ
  | [], _ => 0
  | obs :: rest, s =>
      (match obs.bal with
       | some b => if 0 < b ∧ obs.native_symbol = s then b else 0
       | none => 0) + chainSum rest s

/-- Per-symbol amount contributed by the token-holdings source to the merged
result: the DeBank coins entry when the DeBank branch fired, 0 otherwise. -/
def debankCoinsOf : Option DebankSample → String → ℚ
  | some d, s => if d.coins ≠ [] ∨ 0 < d.balance_usd then dictGet d.coins s else 0
  | none, _ => 0

/-- Spec-side description of the token-holdings total: the sum of
amount * price over the entries with positive amount and nonempty
upper-cased symbol, written directly from the words of the specification
for comparison with the fold the source performs. -/
def debankUsdSum : List DebankEntry → ℚ
  | [] => 0
  | t :: rest =>
      (if 0 < t.amount ∧ strUpper t.symbol ≠ "" then t.amount * t.price.getD 0
       else 0) + debankUsdSum rest

/-- Content of one of the JSON store files on disk.  jsonList is a
well-formed JSON array; malformed covers bytes json.load rejects; jsonOther
a well-formed JSON value that is not a list. -/
inductive FileContent (α : Type) where
  | missing
  | malformed
  | jsonList (xs : List α)
  | jsonOther
deriving DecidableEq

/-- load_json_file with expect_list=True: a missing file, a JSON decode
error, any other loading exception, and a JSON value that is not a list all
yield []. -/
def load_json_file {α : Type} : FileContent α → List α
  | .jsonList xs => xs
  | _ => []

/-- Which way the open/json.dump pair inside save_json_file goes. -/
inductive WriteOutcome where
  | ok
  | openFailed
  | dumpFailed
deriving DecidableEq

/-- save_json_file: opens the path with mode "w" and dumps data.  The body is
wrapped in try/except Exception which only prints the error, so the call
returns normally (the .ok () component) in every case.  If open raises the
file is untouched; if json.dump raises after open the file has already been
truncated, leaving malformed content. -/
def save_json_file {α : Type} (w : WriteOutcome) (old : FileContent α)
    (data : List α) : FileContent α × Except String Unit :=
  match w with
  | .ok => (.jsonList data, .ok ())
  | .openFailed => (old, .ok ())
  | .dumpFailed => (.malformed, .ok ())

/-- append_to_results with the write outcome made explicit: load the whole
store, append one record, rewrite the whole store; the second component is
what the caller can observe about failure (always a normal return). -/
def append_to_results_run {α : Type} (w : WriteOutcome) (c : FileContent α)
    (r : α) : FileContent α × Except String Unit :=
  save_json_file w c (load_json_file c ++ [r])

/-- append_to_results on the successful-write path (the file-state
transformer: read hasil.json, append, rewrite). -/
def append_to_results {α : Type} (c : FileContent α) (r : α) : FileContent α :=
  (append_to_results_run WriteOutcome.ok c r).1

/-- append_to_empty_wallets: identical read-append-rewrite on
empty_wallets.json. -/
def append_to_empty_wallets {α : Type} (c : FileContent α) (r : α) :
    FileContent α :=
  (append_to_results_run WriteOutcome.ok c r).1

/-- One writer in the interleaving model of append_to_results: its record,
the snapshot its load_json_file step produced (none before that step ran)
and whether its save_json_file step ran. -/
structure PendingWriter (α : Type) where
  record : α
  snapshot : Option (List α)
  done : Bool
deriving DecidableEq

/-- A scheduling step: writer i performs its read (load_json_file) or its
write (save_json_file of snapshot ++ [rec]).  append_to_results is exactly
readStep i followed by writeStep i with nothing in between. -/
inductive WriterAction where
  | readStep (i : ℕ)
  | writeStep (i : ℕ)
deriving DecidableEq

/-- State shared by concurrently running append_to_results calls: the store
file plus each writer. -/
structure ConcState (α : Type) where
  file : FileContent α
  writers : List (PendingWriter α)
deriving DecidableEq

/-- Small-step semantics of concurrent append_to_results calls: each writer
first snapshots the whole file, then rewrites the file to
snapshot ++ [rec].  Out-of-order or repeated actions are no-ops. -/
def concStep {α : Type} (st : ConcState α) (a : WriterAction) : ConcState α :=
  match a with
  | .readStep i =>
      match st.writers.get? i with
      | some w =>
          match w.snapshot, w.done with
          | none, false =>
              { st with writers :=
                  st.writers.set i { w with snapshot := some (load_json_file st.file) } }
          | _, _ => st
      | none => st
  | .writeStep i =>
      match st.writers.get? i with
      | some w =>
          match w.snapshot, w.done with
          | some snap, false =>
              { file := .jsonList (snap ++ [w.record]),
                writers := st.writers.set i { w with done := true } }
          | _, _ => st
      | none => st

/-- Run a schedule of read/write steps from an initial store and writer set. -/
def runSchedule {α : Type} (ws : List (PendingWriter α)) (file0 : FileContent α)
    (sched : List WriterAction) : ConcState α :=
  sched.foldl concStep { file := file0, writers := ws }

/-- The record appended to empty_wallets.json for an empty wallet. -/
structure EmptyRec where
  address : String
  phrase : String
  checked_at : String
deriving DecidableEq

/-- The global STATS dict (start_time is presentation-only and omitted). -/
structure Stats where
  total_generated : ℕ
  total_checked : ℕ
  wallets_found : ℕ
  empty_wallets : ℕ
  errors : ℕ
  last_found : Option String
deriving DecidableEq

/-- Everything the environment decides about one of the count loop slots of
scan_wallets_batch: the outcome of create_wallet_random (none = the
derivation raised and wallet_from_phrase returned None; the BIP39 wordlist
is loaded, a precondition main enforces before any scan, so the phrase draw
itself always succeeds), and the source observations its check would see. -/
structure SlotInput where
  derived : Option Wallet
  debank : Option DebankSample
  chainObs : List ChainObs
  now : String
deriving DecidableEq

/-- State threaded through scan_wallets_batch: STATS, the two local counters
found_count / empty_count (which the drain loop assigns into
STATS["wallets_found"] / STATS["empty_wallets"]), and the two store files. -/
structure ScanState where
  stats : Stats
  found_count : ℕ
  empty_count : ℕ
  foundFile : FileContent CheckResult
  emptyFile : FileContent EmptyRec
deriving DecidableEq

/-- Submission loop of scan_wallets_batch: for i in range(count):
wallet = create_wallet_random() — generate_random_12word_phrase increments
STATS["total_generated"] for every slot — and only a successfully derived
wallet is submitted to the executor. -/
def scanSubmit (acc : Stats × List (Wallet × SlotInput)) (sl : SlotInput) :
    Stats × List (Wallet × SlotInput) :=
  let stats1 := { acc.1 with total_generated := acc.1.total_generated + 1 }
  match sl.derived with
  | some w => (stats1, acc.2 ++ [(w, sl)])
  | none => (stats1, acc.2)

/-- Drain loop body of scan_wallets_batch for one completed future:
check_single_wallet incremented STATS["total_checked"] when it ran; a
non-None result bumps found_count, assigns it into STATS["wallets_found"],
records last_found and appends to hasil.json; a None result bumps
empty_count, assigns it into STATS["empty_wallets"] and appends the light
record to empty_wallets.json.  check_single_wallet cannot raise (every
fallible call inside it catches its own exceptions), so the except branch
that would bump STATS["errors"] is unreachable. -/
def scanDrain (st : ScanState) (item : Wallet × SlotInput) : ScanState :=
  let stats1 := { st.stats with total_checked := st.stats.total_checked + 1 }
  match check_single_wallet item.1 item.2.debank item.2.chainObs item.2.now with
  | some r =>
      let fc := st.found_count + 1
      { stats := { stats1 with wallets_found := fc, last_found := some r.address },
        found_count := fc,
        empty_count := st.empty_count,
        foundFile := append_to_results st.foundFile r,
        emptyFile := st.emptyFile }
  | none =>
      let ec := st.empty_count + 1
      { stats := { stats1 with empty_wallets := ec },
        found_count := st.found_count,
        empty_count := ec,
        foundFile := st.foundFile,
        emptyFile := append_to_empty_wallets st.emptyFile
          { address := item.1.address, phrase := item.1.phrase,
            checked_at := item.2.now } }

/-- scan_wallets_batch over a batch whose slots are described by slots
(count = slots.length): submit every slot, then drain the completed checks.
The real drain order is completion order, an arbitrary permutation of the
submission order; every quantity proved below is order-independent, and the
fold uses submission order. -/
def scan_wallets_batch (slots : List SlotInput) (st0 : ScanState) : ScanState :=
  let sub := slots.foldl scanSubmit (st0.stats, [])
  sub.2.foldl scanDrain { st0 with stats := sub.1, found_count := 0, empty_count := 0 }

/-- The wallets actually submitted to the pool, paired with their slot. -/
def submittedOf (slots : List SlotInput) : List (Wallet × SlotInput) :=
  slots.filterMap fun sl => sl.derived.map fun w => (w, sl)

/-- Number of slots whose derivation failed (wallet_from_phrase returned
None). -/
def derivationFailures (slots : List SlotInput) : ℕ :=
  slots.countP fun sl => sl.derived.isNone

/-- The results the drain loop classifies as FOUND, in drain order. -/
def foundResults (slots : List SlotInput) : List CheckResult :=
  (submittedOf slots).filterMap fun p =>
    check_single_wallet p.1 p.2.debank p.2.chainObs p.2.now

/-- A scan state with zeroed counters and empty stores, the state of a fresh
process before its first batch. -/
def scanInit0 : ScanState :=
  { stats := { total_generated := 0, total_checked := 0, wallets_found := 0,
               empty_wallets := 0, errors := 0, last_found := none },
    found_count := 0, empty_count := 0,
    foundFile := .jsonList [], emptyFile := .jsonList [] }

/-- The sources of nondeterminism available to the process: the stream of
draws random.choice consumes and the wall clock. -/
structure Env where
  randStream : ℕ → ℕ
  clock : ℕ

/-- generate_random_12word_phrase: twelve independent uniform draws from the
loaded BIP39 wordlist, joined with single spaces; returns None when the
wordlist is not loaded.  ctr is the position already consumed from the
random stream. -/
def generate_random_12word_phrase (wordlist : List String) (env : Env)
    (ctr : ℕ) : Option String :=
  if wordlist = [] then none
  else some (String.intercalate " "
    ((List.range 12).map fun j =>
      wordlist.getD (env.randStream (ctr + j) % wordlist.length) ""))

/-- Two lowercase hex digits of one byte, modeling bytes.hex(). -/
def byteHex (b : ℕ) : String :=
  String.mk [Nat.digitChar (b / 16 % 16), Nat.digitChar (b % 16)]

/-- bytes.hex() over a byte string modeled as a list of byte values. -/
def bytesHex (bs : List ℕ) : String :=
  String.join (bs.map byteHex)

/-- The external library surface wallet_from_phrase calls into.  to_seed is
Mnemonic("english").to_seed(phrase, passphrase="") (PBKDF2 over the phrase
with empty passphrase); key_from_seed is the hierarchical derivation at the
fixed path m/44h/60h/0h/0/index, with none standing for the exception its
try/except catches; account_from_key is Account.from_key, with none standing
for an exception (caught by the outer try/except, making the whole
derivation fail).  All three are pure deterministic functions in the
libraries the source uses. -/
structure DerivationLibs where
  mnemonicAvailable : Bool
  hdaccountAvailable : Bool
  to_seed : String → List ℕ
  key_from_seed : List ℕ → ℕ → Option (List ℕ)
  account_from_key : List ℕ → Option String

/-- wallet_from_phrase: derive the seed from the phrase, take the
hierarchical-derivation key when key_from_seed is available and succeeds and
the 32-byte seed prefix otherwise, and build the account.  The Env parameter
is the nondeterminism available to the process; the body never consults it,
which is what the determinism theorem below records. -/
def wallet_from_phrase (libs : DerivationLibs) (env : Env) (phrase : String)
    (index : ℕ) : Option Wallet :=
  if libs.mnemonicAvailable = false then none
  else
    let seed := libs.to_seed phrase
    let private_key :=
      if libs.hdaccountAvailable then
        match libs.key_from_seed seed index with
        | some k => k
        | none => seed.take 32
      else seed.take 32
    match libs.account_from_key private_key with
    | some addr =>
        some { address := addr, private_key := bytesHex private_key,
               phrase := phrase }
    | none => none

/-- Wallet used by the concrete decision-policy instance: a token-holdings
response holding one coin with amount 1 and price 0. -/
def c1wallet : Wallet := { address := "0xA1", private_key := "k1", phrase := "p1" }

/-- A DeBank response entry with positive amount and zero price. -/
def c1entry : DebankEntry := { symbol := "ETH", amount := 1, price := some 0 }

/-- Wallet used by the concrete merge instance. -/
def c2wallet : Wallet := { address := "0xA2", private_key := "k2", phrase := "p2" }

/-- Token-holdings sample reporting ETH amount 1. -/
def c2debank : DebankSample := { coins := [("ETH", 1)], balance_usd := 2000 }

/-- One chain observation with native symbol ETH and native balance 1/2. -/
def c2chains : List ChainObs :=
  [{ chain := "eth", native_symbol := "ETH", bal := some (1 / 2), nonce := 0 }]

/-- Wallet used by the concrete partial-failure instance. -/
def c3wallet : Wallet := { address := "0xA3", private_key := "k3", phrase := "p3" }

/-- One chain call that found no balance but reports nonce 5. -/
def c3chains : List ChainObs :=
  [{ chain := "eth", native_symbol := "ETH", bal := none, nonce := 5 }]

/-- Wallet used by the concrete token-holdings-sum instance. -/
def c7wallet : Wallet := { address := "0xA7", private_key := "k7", phrase := "p7" }

/-- The token-holdings response of end-to-end scenario B: one entry with
symbol ETH, amount 1.5 and price 2000. -/
def c7entries : List DebankEntry :=
  [{ symbol := "ETH", amount := 3 / 2, price := some 2000 }]

/-- A chain observation carrying a positive native balance, present to show
that chain data leaves balance_usd untouched. -/
def c7chains : List ChainObs :=
  [{ chain := "eth", native_symbol := "ETH", bal := some 1, nonce := 7 }]

/-- A batch of one slot whose derivation failed. -/
def c4slots : List SlotInput :=
  [{ derived := none, debank := none, chainObs := [], now := "t4" }]

/-- A wallet whose derivation succeeds in the two-slot batch below. -/
def c5wallet : Wallet := { address := "0xA5", private_key := "k5", phrase := "p5" }

/-- A batch of two slots: the first derivation fails, the second succeeds and
checks empty. -/
def c5slots : List SlotInput :=
  [{ derived := none, debank := none, chainObs := [], now := "t5a" },
   { derived := some c5wallet, debank := none, chainObs := [], now := "t5b" }]

/-- The merged result of the concrete merge instance: 1 from the
token-holdings sample plus 1/2 native ETH gives exactly 3/2. -/
def c2result : CheckResult :=
  { address := "0xA2", private_key := "k2", phrase := "p2",
    balance_usd := 2000, coins := [("ETH", 3 / 2)], chains := ["eth"],
    nonce := 0, found_at := "t2" }

/-- The result of the concrete token-holdings-sum instance:
1.5 ETH at price 2000 gives balance_usd 3000. -/
def c7result : CheckResult :=
  { address := "0xA7", private_key := "k7", phrase := "p7",
    balance_usd := 3000, coins := [("ETH", 5 / 2)], chains := ["eth"],
    nonce := 7, found_at := "t7" }

theorem dictGet_insert_self (d : List (String × ℚ)) (k : String) (v : ℚ) :
    dictGet (dictInsert d k v) k = v := by
  induction d with
  | nil => simp [dictInsert, dictGet]
  | cons hd tl ih =>
      obtain ⟨k0, v0⟩ := hd
      by_cases h : k0 = k
      · simp [dictInsert, dictGet, h]
      · simp [dictInsert, dictGet, h, ih]

theorem dictGet_insert_ne (d : List (String × ℚ)) (k s : String) (v : ℚ)
    (h : k ≠ s) : dictGet (dictInsert d k v) s = dictGet d s := by
  induction d with
  | nil => simp [dictInsert, dictGet, h]
  | cons hd tl ih =>
      obtain ⟨k0, v0⟩ := hd
      by_cases h0 : k0 = k
      · subst h0
        simp [dictInsert, dictGet, h]
      · by_cases hs : k0 = s
        · simp [dictInsert, dictGet, h0, hs, Ne.symm h]
        · simp [dictInsert, dictGet, h0, hs, ih]

theorem dictInsert_ne_nil (d : List (String × ℚ)) (k : String) (v : ℚ) :
    dictInsert d k v ≠ [] := by
  cases d with
  | nil => simp [dictInsert]
  | cons hd tl =>
      obtain ⟨k0, v0⟩ := hd
      by_cases h : k0 = k <;> simp [dictInsert, h]

theorem mergeChainObs_hasValue (acc : MergeAcc) (obs : ChainObs) :
    (mergeChainObs acc obs).hasValue =
      (acc.hasValue ||
        match obs.bal with
        | some b => decide (0 < b)
        | none => false) := by
  unfold mergeChainObs
  cases obs.bal with
  | none => dsimp only; split <;> simp
  | some b =>
      by_cases hb : 0 < b
      · simp only [hb, if_true]
        split <;> simp
      · simp only [hb, if_false]
        split <;> simp [hb]

theorem mergeChainObs_maxNonce (acc : MergeAcc) (obs : ChainObs) :
    (mergeChainObs acc obs).maxNonce = max acc.maxNonce obs.nonce := by
  unfold mergeChainObs
  cases obs.bal with
  | none => dsimp only; split <;> simp <;> omega
  | some b =>
      by_cases hb : 0 < b
      · simp only [hb, if_true]
        split <;> simp <;> omega
      · simp only [hb, if_false]
        split <;> simp <;> omega

theorem mergeChainObs_coins (acc : MergeAcc) (obs : ChainObs) :
    (mergeChainObs acc obs).coins =
      match obs.bal with
      | some b =>
          if 0 < b then
            dictInsert acc.coins obs.native_symbol
              (dictGet acc.coins obs.native_symbol + b)
          else acc.coins
      | none => acc.coins := by
  unfold mergeChainObs
  cases obs.bal with
  | none => dsimp only; split <;> simp
  | some b =>
      by_cases hb : 0 < b
      · simp only [hb, if_true]
        split <;> simp
      · simp only [hb, if_false]
        split <;> simp

theorem foldl_merge_hasValue (cs : List ChainObs) (acc : MergeAcc) :
    (cs.foldl mergeChainObs acc).hasValue = (acc.hasValue || anyPosBal cs) := by
  induction cs generalizing acc with
  | nil => simp [anyPosBal]
  | cons obs rest ih =>
      rw [List.foldl_cons, ih, mergeChainObs_hasValue]
      simp [anyPosBal, Bool.or_assoc]

/-- Recursive restatement of the running maximum the nonce loop computes;
proved equal to maxNonceOf below and used to reason by induction. -/
def maxNonceList : List ChainObs → ℕ
  | [] => 0
  | obs :: rest => max obs.nonce (maxNonceList rest)

theorem maxNonce_foldl_shift (cs : List ChainObs) (a : ℕ) :
    cs.foldl (fun m obs => if m < obs.nonce then obs.nonce else m) a =
      max a (maxNonceList cs) := by
  induction cs generalizing a with
  | nil => simp [maxNonceList]
  | cons obs rest ih =>
      rw [List.foldl_cons, ih]
      simp only [maxNonceList]
      split_ifs <;> omega

theorem maxNonceOf_eq (cs : List ChainObs) : maxNonceOf cs = maxNonceList cs := by
  unfold maxNonceOf
  rw [maxNonce_foldl_shift]
  omega

theorem maxNonceOf_cons (obs : ChainObs) (rest : List ChainObs) :
    maxNonceOf (obs :: rest) = max obs.nonce (maxNonceOf rest) := by
  rw [maxNonceOf_eq, maxNonceOf_eq]
  rfl

theorem foldl_merge_maxNonce (cs : List ChainObs) (acc : MergeAcc) :
    (cs.foldl mergeChainObs acc).maxNonce = max acc.maxNonce (maxNonceOf cs) := by
  induction cs generalizing acc with
  | nil => simp [maxNonceOf]
  | cons obs rest ih =>
      rw [List.foldl_cons, ih, mergeChainObs_maxNonce, maxNonceOf_cons]
      omega

theorem chainSum_cons (obs : ChainObs) (rest : List ChainObs) (s : String) :
    chainSum (obs :: rest) s =
      (match obs.bal with
       | some b => if 0 < b ∧ obs.native_symbol = s then b else 0
       | none => 0) + chainSum rest s := rfl

theorem foldl_merge_coins (cs : List ChainObs) (acc : MergeAcc) (s : String) :
    dictGet (cs.foldl mergeChainObs acc).coins s =
      dictGet acc.coins s + chainSum cs s := by
  induction cs generalizing acc with
  | nil => simp [chainSum]
  | cons obs rest ih =>
      rw [List.foldl_cons, ih, chainSum_cons, mergeChainObs_coins]
      cases obs.bal with
      | none => dsimp only; ring
      | some b =>
          dsimp only
          by_cases hb : 0 < b
          · by_cases hs : obs.native_symbol = s
            · subst hs
              rw [if_pos hb, dictGet_insert_self, if_pos ⟨hb, rfl⟩]
              ring
            · rw [if_pos hb, dictGet_insert_ne _ _ _ _ hs,
                if_neg (by exact fun h => hs h.2)]
              ring
          · rw [if_neg hb, if_neg (by exact fun h => hb h.1)]
            ring

theorem posBal_iff (obs : ChainObs) :
    ((match obs.bal with
      | some b => decide (0 < b)
      | none => false) = true) ↔ ∃ b, obs.bal = some b ∧ 0 < b := by
  cases h : obs.bal <;> simp

theorem anyPosBal_iff (cs : List ChainObs) :
    anyPosBal cs = true ↔ ∃ obs ∈ cs, ∃ b, obs.bal = some b ∧ 0 < b := by
  unfold anyPosBal
  rw [List.any_eq_true]
  constructor
  · rintro ⟨obs, hmem, hp⟩
    exact ⟨obs, hmem, (posBal_iff obs).mp hp⟩
  · rintro ⟨obs, hmem, hb⟩
    exact ⟨obs, hmem, (posBal_iff obs).mpr hb⟩

theorem nonce_le_maxNonceOf (cs : List ChainObs) (obs : ChainObs)
    (h : obs ∈ cs) : obs.nonce ≤ maxNonceOf cs := by
  induction cs with
  | nil => cases h
  | cons hd tl ih =>
      rw [maxNonceOf_cons]
      rcases List.mem_cons.mp h with h0 | h0
      · subst h0; omega
      · have h1 := ih h0; omega

theorem debankInitAcc_maxNonce (debank : Option DebankSample) :
    (debankInitAcc debank).maxNonce = 0 := by
  cases debank with
  | none => rfl
  | some d =>
      simp only [debankInitAcc]
      split_ifs <;> rfl

theorem debankInitAcc_hasValue (debank : Option DebankSample) :
    (debankInitAcc debank).hasValue = true ↔
      ∃ d, debank = some d ∧ (d.coins ≠ [] ∨ 0 < d.balance_usd) := by
  cases debank with
  | none => simp [debankInitAcc]
  | some d =>
      simp only [debankInitAcc]
      by_cases hd : d.coins ≠ [] ∨ 0 < d.balance_usd
      · simp [hd]
      · simp [hd]

theorem debankCoinsOf_eq (debank : Option DebankSample) (s : String) :
    dictGet (debankInitAcc debank).coins s = debankCoinsOf debank s := by
  cases debank with
  | none => rfl
  | some d =>
      simp only [debankInitAcc, debankCoinsOf]
      split_ifs <;> rfl

theorem check_some_fields (w : Wallet) (debank : Option DebankSample)
    (cs : List ChainObs) (now : String) (r : CheckResult)
    (h : check_single_wallet w debank cs now = some r) :
    r = { address := w.address, private_key := w.private_key, phrase := w.phrase,
          balance_usd := debankBusd debank,
          coins := (cs.foldl mergeChainObs (debankInitAcc debank)).coins,
          chains := (cs.foldl mergeChainObs (debankInitAcc debank)).chains,
          nonce := (cs.foldl mergeChainObs (debankInitAcc debank)).maxNonce,
          found_at := now } := by
  unfold check_single_wallet at h
  dsimp only at h
  split at h
  · exact (Option.some.inj h).symm
  · simp at h

/-- C1 (amended): an AggregatedResult is produced (hasValue, classified
FOUND) iff the token-holdings call succeeded with a nonempty coins map or a
positive USD total, or some chain reported a strictly positive native
balance, or the maximum observed nonce is positive.  The first disjunct is
strictly weaker than balanceUsd > 0: a nonempty coins map alone (all prices
zero) already sets hasValue. -/
theorem hasValue_iff_sources_nonzero (w : Wallet) (debank : Option DebankSample)
    (cs : List ChainObs) (now : String) :
    (check_single_wallet w debank cs now).isSome = true ↔
      ((∃ d, debank = some d ∧ (d.coins ≠ [] ∨ 0 < d.balance_usd)) ∨
       (∃ obs ∈ cs, ∃ b, obs.bal = some b ∧ 0 < b) ∨
       0 < maxNonceOf cs) := by
  have hcondiff :
      ((cs.foldl mergeChainObs (debankInitAcc debank)).hasValue = true ∨
        0 < (cs.foldl mergeChainObs (debankInitAcc debank)).maxNonce) ↔
      ((∃ d, debank = some d ∧ (d.coins ≠ [] ∨ 0 < d.balance_usd)) ∨
       (∃ obs ∈ cs, ∃ b, obs.bal = some b ∧ 0 < b) ∨
       0 < maxNonceOf cs) := by
    rw [foldl_merge_hasValue, foldl_merge_maxNonce, debankInitAcc_maxNonce]
    rw [Bool.or_eq_true, debankInitAcc_hasValue, anyPosBal_iff]
    have hmax : max 0 (maxNonceOf cs) = maxNonceOf cs := by omega
    rw [hmax, or_assoc]
  unfold check_single_wallet
  dsimp only
  by_cases hcond :
      ((cs.foldl mergeChainObs (debankInitAcc debank)).hasValue = true ∨
        0 < (cs.foldl mergeChainObs (debankInitAcc debank)).maxNonce)
  · rw [if_pos hcond]
    simpa using hcondiff.mp hcond
  · rw [if_neg hcond]
    simp only [Option.isSome_none, Bool.false_eq_true, false_iff]
    exact fun hrhs => hcond (hcondiff.mpr hrhs)

/-- C1 counterexample: a token-holdings response holding one entry with
amount 1 and price 0 yields a result (hasValue true, classified FOUND) whose
balance_usd is 0, with no chain balance and nonce 0 — the claimed
equivalence (hasValue iff balanceUsd > 0 or a chain balance > 0 or
nonce > 0) fails at this input. -/
theorem zero_priced_coin_forces_found :
    check_single_wallet c1wallet
        (fetch_debank_for_address true (some [c1entry])) [] "t1" =
      some { address := "0xA1", private_key := "k1", phrase := "p1",
             balance_usd := 0, coins := [("ETH", 1)], chains := [],
             nonce := 0, found_at := "t1" } ∧
    ¬((0 : ℚ) < 0 ∨
      (∃ obs ∈ ([] : List ChainObs), ∃ b, obs.bal = some b ∧ 0 < b) ∨
      0 < maxNonceOf []) := by
  constructor
  · norm_num [check_single_wallet, fetch_debank_for_address, debankFoldStep,
      debankInitAcc, debankBusd, c1wallet, c1entry, dictGet, dictInsert,
      show strUpper "ETH" = "ETH" from by decide,
      show ("ETH" : String) ≠ "" from by decide]
  · simp [maxNonceOf]

/-- C2: per-symbol amounts in the merged result accumulate additively — for
every symbol, the merged amount is exactly the token-holdings contribution
plus the sum of the strictly positive native balances reported for that
symbol, in exact (rational) arithmetic. -/
theorem coins_merge_additive (w : Wallet) (debank : Option DebankSample)
    (cs : List ChainObs) (now : String) (r : CheckResult) (s : String)
    (h : check_single_wallet w debank cs now = some r) :
    dictGet r.coins s = debankCoinsOf debank s + chainSum cs s := by
  rw [check_some_fields w debank cs now r h]
  dsimp only
  rw [foldl_merge_coins, debankCoinsOf_eq]

/-- C2 witness: a token-holdings sample with ETH amount 1 merged with a
chain native balance 1/2 for symbol ETH yields coins.ETH exactly 3/2. -/
theorem coins_merge_additive_example :
    (check_single_wallet c2wallet (some c2debank) c2chains "t2" = some c2result) ∧
    dictGet c2result.coins "ETH" = 3 / 2 ∧
    dictGet c2result.coins "ETH" =
      debankCoinsOf (some c2debank) "ETH" + chainSum c2chains "ETH" := by
  have hcheck : check_single_wallet c2wallet (some c2debank) c2chains "t2" =
      some c2result := by
    norm_num [check_single_wallet, c2wallet, c2debank, c2chains, c2result,
      debankInitAcc, debankBusd, mergeChainObs, dictGet, dictInsert]
  refine ⟨hcheck, by norm_num [dictGet, c2result], ?_⟩
  exact coins_merge_additive c2wallet (some c2debank) c2chains "t2" c2result "ETH"
    hcheck

/-- C3: a failed token-holdings call (degraded to absent data) does not
abort the check: if some chain reported a positive nonce the check still
returns a result (classified FOUND), its balance_usd stays 0 and its nonce
is the maximum nonce over the chain calls. -/
theorem debank_failure_nonfatal (w : Wallet) (cs : List ChainObs) (now : String)
    (h : ∃ obs ∈ cs, 0 < obs.nonce) :
    ∃ r, check_single_wallet w none cs now = some r ∧
      r.balance_usd = 0 ∧ r.nonce = maxNonceOf cs := by
  obtain ⟨obs, hmem, hn⟩ := h
  have hpos : 0 < maxNonceOf cs := lt_of_lt_of_le hn (nonce_le_maxNonceOf cs obs hmem)
  have hmaxeq : (cs.foldl mergeChainObs (debankInitAcc none)).maxNonce =
      maxNonceOf cs := by
    rw [foldl_merge_maxNonce, debankInitAcc_maxNonce]
    omega
  have hcond : ((cs.foldl mergeChainObs (debankInitAcc none)).hasValue = true ∨
      0 < (cs.foldl mergeChainObs (debankInitAcc none)).maxNonce) := by
    right
    omega
  refine ⟨{ address := w.address, private_key := w.private_key, phrase := w.phrase,
            balance_usd := debankBusd none,
            coins := (cs.foldl mergeChainObs (debankInitAcc none)).coins,
            chains := (cs.foldl mergeChainObs (debankInitAcc none)).chains,
            nonce := (cs.foldl mergeChainObs (debankInitAcc none)).maxNonce,
            found_at := now }, ?_, rfl, hmaxeq⟩
  unfold check_single_wallet
  dsimp only
  rw [if_pos hcond]

/-- C3 witness: the token-holdings call fails, the single chain call reports
nonce 5 — the result exists with balance_usd 0 and nonce 5. -/
theorem debank_failure_nonfatal_example :
    (∃ obs ∈ c3chains, 0 < obs.nonce) ∧
    ∃ r, check_single_wallet c3wallet none c3chains "t3" = some r ∧
      r.balance_usd = 0 ∧ r.nonce = maxNonceOf c3chains := by
  have hx : ∃ obs ∈ c3chains, 0 < obs.nonce := by
    refine ⟨{ chain := "eth", native_symbol := "ETH", bal := none, nonce := 5 },
      ?_, ?_⟩
    · simp [c3chains]
    · norm_num
  exact ⟨hx, debank_failure_nonfatal c3wallet c3chains "t3" hx⟩

theorem debankUsdSum_cons (t : DebankEntry) (rest : List DebankEntry) :
    debankUsdSum (t :: rest) =
      (if 0 < t.amount ∧ strUpper t.symbol ≠ "" then t.amount * t.price.getD 0
       else 0) + debankUsdSum rest := rfl

theorem debankFoldStep_eq (c : List (String × ℚ)) (u : ℚ) (t : DebankEntry) :
    debankFoldStep (c, u) t =
      if 0 < t.amount ∧ strUpper t.symbol ≠ "" then
        (dictInsert c (strUpper t.symbol) t.amount, u + t.amount * t.price.getD 0)
      else (c, u) := rfl

theorem debank_fold_busd (items : List DebankEntry) (c : List (String × ℚ))
    (u : ℚ) : (items.foldl debankFoldStep (c, u)).2 = u + debankUsdSum items := by
  induction items generalizing c u with
  | nil => simp [debankUsdSum]
  | cons t rest ih =>
      rw [List.foldl_cons, debankUsdSum_cons, debankFoldStep_eq]
      by_cases hk : 0 < t.amount ∧ strUpper t.symbol ≠ ""
      · rw [if_pos hk, if_pos hk, ih]
        ring
      · rw [if_neg hk, if_neg hk, ih]
        ring

theorem debank_fold_coins_nil (items : List DebankEntry)
    (c : List (String × ℚ)) (u : ℚ)
    (h : (items.foldl debankFoldStep (c, u)).1 = []) :
    c = [] ∧ debankUsdSum items = 0 := by
  induction items generalizing c u with
  | nil => exact ⟨h, rfl⟩
  | cons t rest ih =>
      rw [List.foldl_cons, debankFoldStep_eq] at h
      by_cases hk : 0 < t.amount ∧ strUpper t.symbol ≠ ""
      · rw [if_pos hk] at h
        have hne := (ih _ _ h).1
        exact absurd hne (dictInsert_ne_nil c (strUpper t.symbol) t.amount)
      · rw [if_neg hk] at h
        obtain ⟨hc, hsum⟩ := ih _ _ h
        refine ⟨hc, ?_⟩
        rw [debankUsdSum_cons, if_neg hk, hsum]
        ring

/-- C7: for a successful token-holdings response, the balance_usd of the
merged result is exactly the sum of amount * price over the entries with
positive amount and nonempty symbol (exact rational arithmetic), whatever
the chain observations are — native balances contribute nothing to it. -/
theorem balance_usd_from_token_holdings_sum (entries : List DebankEntry)
    (w : Wallet) (cs : List ChainObs) (now : String) (r : CheckResult)
    (h : check_single_wallet w (fetch_debank_for_address true (some entries))
      cs now = some r) :
    r.balance_usd = debankUsdSum entries := by
  have h1 : r.balance_usd =
      debankBusd (fetch_debank_for_address true (some entries)) := by
    rw [check_some_fields w _ cs now r h]
  have hfetch : fetch_debank_for_address true (some entries) =
      some { coins := (entries.foldl debankFoldStep ([], 0)).1,
             balance_usd := (entries.foldl debankFoldStep ([], 0)).2 } := rfl
  rw [h1, hfetch]
  unfold debankBusd
  dsimp only
  by_cases hc : (entries.foldl debankFoldStep ([], 0)).1 ≠ [] ∨
      0 < (entries.foldl debankFoldStep ([], 0)).2
  · rw [if_pos hc, debank_fold_busd]
    ring
  · rw [if_neg hc]
    push_neg at hc
    obtain ⟨hnil, _⟩ := hc
    have hsum := (debank_fold_coins_nil entries [] 0 hnil).2
    rw [hsum]

/-- C7 witness: the single entry with symbol ETH, amount 3/2 and price 2000
yields balance_usd exactly 3000, even with a chain reporting a positive
native balance and nonce. -/
theorem balance_usd_from_token_holdings_example :
    (check_single_wallet c7wallet
        (fetch_debank_for_address true (some c7entries)) c7chains "t7" =
      some c7result) ∧
    c7result.balance_usd = debankUsdSum c7entries ∧
    c7result.balance_usd = 3000 := by
  have hcheck : check_single_wallet c7wallet
      (fetch_debank_for_address true (some c7entries)) c7chains "t7" =
      some c7result := by
    norm_num [check_single_wallet, fetch_debank_for_address, debankFoldStep,
      debankInitAcc, debankBusd, mergeChainObs, c7wallet, c7entries, c7chains,
      c7result, dictGet, dictInsert,
      show strUpper "ETH" = "ETH" from by decide,
      show ("ETH" : String) ≠ "" from by decide]
  refine ⟨hcheck, ?_, by norm_num [c7result]⟩
  exact balance_usd_from_token_holdings_sum c7entries c7wallet c7chains "t7"
    c7result hcheck

theorem submittedOf_cons (sl : SlotInput) (rest : List SlotInput) :
    submittedOf (sl :: rest) =
      (match sl.derived with
       | some w => [(w, sl)]
       | none => []) ++ submittedOf rest := by
  unfold submittedOf
  rw [List.filterMap_cons]
  cases sl.derived <;> rfl

theorem derivationFailures_cons (sl : SlotInput) (rest : List SlotInput) :
    derivationFailures (sl :: rest) =
      (if sl.derived.isNone then 1 else 0) + derivationFailures rest := by
  unfold derivationFailures
  rw [List.countP_cons]
  cases sl.derived <;> simp <;> omega

theorem submitted_length_add_failures (slots : List SlotInput) :
    (submittedOf slots).length + derivationFailures slots = slots.length := by
  induction slots with
  | nil => rfl
  | cons sl rest ih =>
      rw [submittedOf_cons, derivationFailures_cons]
      cases sl.derived <;> simp <;> omega

theorem scanSubmit_eq (s : Stats) (acc : List (Wallet × SlotInput))
    (sl : SlotInput) :
    scanSubmit (s, acc) sl =
      ({ s with total_generated := s.total_generated + 1 },
       match sl.derived with
       | some w => acc ++ [(w, sl)]
       | none => acc) := by
  unfold scanSubmit
  cases sl.derived <;> rfl

theorem scanSubmit_fold_fields (slots : List SlotInput) (s : Stats)
    (acc : List (Wallet × SlotInput)) :
    (slots.foldl scanSubmit (s, acc)).1.total_generated =
      s.total_generated + slots.length ∧
    (slots.foldl scanSubmit (s, acc)).1.total_checked = s.total_checked ∧
    (slots.foldl scanSubmit (s, acc)).1.wallets_found = s.wallets_found ∧
    (slots.foldl scanSubmit (s, acc)).1.empty_wallets = s.empty_wallets ∧
    (slots.foldl scanSubmit (s, acc)).1.errors = s.errors := by
  induction slots generalizing s acc with
  | nil => simp
  | cons sl rest ih =>
      rw [List.foldl_cons, scanSubmit_eq]
      cases sl.derived with
      | some w =>
          dsimp only
          obtain ⟨h1, h2, h3, h4, h5⟩ :=
            ih { s with total_generated := s.total_generated + 1 }
              (acc ++ [(w, sl)])
          exact ⟨by rw [h1]; simp only [List.length_cons]; omega,
            h2, h3, h4, h5⟩
      | none =>
          dsimp only
          obtain ⟨h1, h2, h3, h4, h5⟩ :=
            ih { s with total_generated := s.total_generated + 1 } acc
          exact ⟨by rw [h1]; simp only [List.length_cons]; omega,
            h2, h3, h4, h5⟩

theorem scanSubmit_fold_submitted (slots : List SlotInput) (s : Stats)
    (acc : List (Wallet × SlotInput)) :
    (slots.foldl scanSubmit (s, acc)).2 = acc ++ submittedOf slots := by
  induction slots generalizing s acc with
  | nil => simp [submittedOf]
  | cons sl rest ih =>
      rw [List.foldl_cons, scanSubmit_eq, submittedOf_cons]
      cases sl.derived with
      | some w => dsimp only; rw [ih]; simp
      | none => dsimp only; rw [ih]; simp

theorem scanDrain_generated (st : ScanState) (item : Wallet × SlotInput) :
    (scanDrain st item).stats.total_generated = st.stats.total_generated := by
  unfold scanDrain
  cases check_single_wallet item.1 item.2.debank item.2.chainObs item.2.now <;> rfl

theorem scanDrain_errors (st : ScanState) (item : Wallet × SlotInput) :
    (scanDrain st item).stats.errors = st.stats.errors := by
  unfold scanDrain
  cases check_single_wallet item.1 item.2.debank item.2.chainObs item.2.now <;> rfl

theorem scanDrain_checked (st : ScanState) (item : Wallet × SlotInput) :
    (scanDrain st item).stats.total_checked = st.stats.total_checked + 1 := by
  unfold scanDrain
  cases check_single_wallet item.1 item.2.debank item.2.chainObs item.2.now <;> rfl

theorem scanDrain_counts (st : ScanState) (item : Wallet × SlotInput) :
    (scanDrain st item).found_count + (scanDrain st item).empty_count =
      st.found_count + st.empty_count + 1 := by
  unfold scanDrain
  cases check_single_wallet item.1 item.2.debank item.2.chainObs item.2.now <;>
    (dsimp only; omega)

theorem scanDrain_mirror_found (st : ScanState) (item : Wallet × SlotInput)
    (h : st.stats.wallets_found = st.found_count) :
    (scanDrain st item).stats.wallets_found = (scanDrain st item).found_count := by
  unfold scanDrain
  cases check_single_wallet item.1 item.2.debank item.2.chainObs item.2.now <;>
    dsimp only <;> omega

theorem scanDrain_mirror_empty (st : ScanState) (item : Wallet × SlotInput)
    (h : st.stats.empty_wallets = st.empty_count) :
    (scanDrain st item).stats.empty_wallets = (scanDrain st item).empty_count := by
  unfold scanDrain
  cases check_single_wallet item.1 item.2.debank item.2.chainObs item.2.now <;>
    dsimp only <;> omega

theorem scanDrain_fold_generated (items : List (Wallet × SlotInput))
    (st : ScanState) :
    (items.foldl scanDrain st).stats.total_generated =
      st.stats.total_generated := by
  induction items generalizing st with
  | nil => rfl
  | cons item rest ih => rw [List.foldl_cons, ih, scanDrain_generated]

theorem scanDrain_fold_errors (items : List (Wallet × SlotInput))
    (st : ScanState) :
    (items.foldl scanDrain st).stats.errors = st.stats.errors := by
  induction items generalizing st with
  | nil => rfl
  | cons item rest ih => rw [List.foldl_cons, ih, scanDrain_errors]

theorem scanDrain_fold_checked (items : List (Wallet × SlotInput))
    (st : ScanState) :
    (items.foldl scanDrain st).stats.total_checked =
      st.stats.total_checked + items.length := by
  induction items generalizing st with
  | nil => rfl
  | cons item rest ih =>
      rw [List.foldl_cons, ih, scanDrain_checked, List.length_cons]
      omega

theorem scanDrain_fold_counts (items : List (Wallet × SlotInput))
    (st : ScanState) :
    (items.foldl scanDrain st).found_count +
        (items.foldl scanDrain st).empty_count =
      st.found_count + st.empty_count + items.length := by
  induction items generalizing st with
  | nil => rfl
  | cons item rest ih =>
      rw [List.foldl_cons, ih]
      have h := scanDrain_counts st item
      rw [List.length_cons]
      omega

theorem scanDrain_fold_mirror_found (items : List (Wallet × SlotInput))
    (st : ScanState) (h : st.stats.wallets_found = st.found_count) :
    (items.foldl scanDrain st).stats.wallets_found =
      (items.foldl scanDrain st).found_count := by
  induction items generalizing st with
  | nil => exact h
  | cons item rest ih =>
      rw [List.foldl_cons]
      exact ih _ (scanDrain_mirror_found st item h)

theorem scanDrain_fold_mirror_empty (items : List (Wallet × SlotInput))
    (st : ScanState) (h : st.stats.empty_wallets = st.empty_count) :
    (items.foldl scanDrain st).stats.empty_wallets =
      (items.foldl scanDrain st).empty_count := by
  induction items generalizing st with
  | nil => exact h
  | cons item rest ih =>
      rw [List.foldl_cons]
      exact ih _ (scanDrain_mirror_empty st item h)

theorem append_to_results_jsonList {α : Type} (xs : List α) (r : α) :
    append_to_results (FileContent.jsonList xs) r =
      FileContent.jsonList (xs ++ [r]) := rfl

theorem foldl_append_to_results {α : Type} (rs : List α) (xs : List α) :
    rs.foldl append_to_results (FileContent.jsonList xs) =
      FileContent.jsonList (xs ++ rs) := by
  induction rs generalizing xs with
  | nil => simp
  | cons r rest ih =>
      rw [List.foldl_cons, append_to_results_jsonList, ih]
      simp

theorem scanDrain_fold_foundFile (items : List (Wallet × SlotInput))
    (st : ScanState) :
    (items.foldl scanDrain st).foundFile =
      (items.filterMap fun p =>
        check_single_wallet p.1 p.2.debank p.2.chainObs p.2.now).foldl
        append_to_results st.foundFile := by
  induction items generalizing st with
  | nil => rfl
  | cons item rest ih =>
      rw [List.foldl_cons, ih, List.filterMap_cons]
      cases hres : check_single_wallet item.1 item.2.debank item.2.chainObs
          item.2.now with
      | none =>
          have hstep : (scanDrain st item).foundFile = st.foundFile := by
            unfold scanDrain
            rw [hres]
          rw [hstep]
      | some r =>
          have hstep : (scanDrain st item).foundFile =
              append_to_results st.foundFile r := by
            unfold scanDrain
            rw [hres]
          rw [hstep, List.foldl_cons]

theorem scanDrain_fold_summary (items : List (Wallet × SlotInput))
    (s1 : ScanState) (hf : s1.stats.wallets_found = s1.found_count)
    (he : s1.stats.empty_wallets = s1.empty_count) :
    (items.foldl scanDrain s1).stats.wallets_found +
        (items.foldl scanDrain s1).stats.empty_wallets =
      s1.found_count + s1.empty_count + items.length := by
  rw [scanDrain_fold_mirror_found items s1 hf,
    scanDrain_fold_mirror_empty items s1 he, scanDrain_fold_counts]

theorem scan_batch_fields (slots : List SlotInput) :
    (scan_wallets_batch slots scanInit0).stats.total_generated = slots.length ∧
    (scan_wallets_batch slots scanInit0).stats.errors = 0 ∧
    (scan_wallets_batch slots scanInit0).stats.total_checked =
      (submittedOf slots).length ∧
    (scan_wallets_batch slots scanInit0).stats.wallets_found +
        (scan_wallets_batch slots scanInit0).stats.empty_wallets =
      (submittedOf slots).length ∧
    (scan_wallets_batch slots scanInit0).foundFile =
      FileContent.jsonList (foundResults slots) := by
  obtain ⟨h1, h2, h3, h4, h5⟩ := scanSubmit_fold_fields slots scanInit0.stats []
  unfold scan_wallets_batch
  dsimp only
  rw [scanSubmit_fold_submitted, List.nil_append]
  refine ⟨?_, ?_, ?_, ?_, ?_⟩
  · rw [scanDrain_fold_generated]
    dsimp only
    rw [h1]
    dsimp only [scanInit0]
    omega
  · rw [scanDrain_fold_errors]
    dsimp only
    rw [h5]
    dsimp only [scanInit0]
  · rw [scanDrain_fold_checked]
    dsimp only
    rw [h2]
    dsimp only [scanInit0]
    omega
  · rw [scanDrain_fold_summary]
    · dsimp only
      omega
    · dsimp only
      rw [h3]
      dsimp only [scanInit0]
    · dsimp only
      rw [h4]
      dsimp only [scanInit0]
  · rw [scanDrain_fold_foundFile]
    dsimp only [scanInit0]
    rw [foldl_append_to_results]
    simp [foundResults]

/-- C4 (amended): after a batch over slots (count = slots.length, with the
wordlist loaded), total_generated equals count — failed derivations are
still counted as generated and no separate derivation-error counter exists —
total_checked equals total_generated minus the number of failed derivations,
and wallets_found + empty_wallets equals total_checked.  The claimed
equation generated + derivationErrors == count therefore fails whenever a
derivation fails (see the counterexample). -/
theorem batch_counters_invariant (slots : List SlotInput) :
    (scan_wallets_batch slots scanInit0).stats.total_generated = slots.length ∧
    (scan_wallets_batch slots scanInit0).stats.total_checked =
      (scan_wallets_batch slots scanInit0).stats.total_generated -
        derivationFailures slots ∧
    (scan_wallets_batch slots scanInit0).stats.wallets_found +
        (scan_wallets_batch slots scanInit0).stats.empty_wallets =
      (scan_wallets_batch slots scanInit0).stats.total_checked := by
  obtain ⟨hG, hE, hC, hFE, hFile⟩ := scan_batch_fields slots
  have hlen := submitted_length_add_failures slots
  refine ⟨hG, ?_, ?_⟩
  · rw [hC, hG]
    omega
  · rw [hFE, hC]

/-- C4 counterexample: a batch of one slot whose derivation fails ends with
total_generated = 1 and one failed derivation, so
generated + derivationErrors = 2 ≠ 1 = count; and the STATS errors counter
stays 0, so under the alternative reading derivationErrors = errors the
equation checked == generated - derivationErrors also fails (0 ≠ 1). -/
theorem batch_counter_identity_fails :
    (scan_wallets_batch c4slots scanInit0).stats.total_generated = 1 ∧
    derivationFailures c4slots = 1 ∧
    c4slots.length = 1 ∧
    (scan_wallets_batch c4slots scanInit0).stats.errors = 0 ∧
    (scan_wallets_batch c4slots scanInit0).stats.total_checked = 0 ∧
    ¬((scan_wallets_batch c4slots scanInit0).stats.total_generated +
        derivationFailures c4slots = c4slots.length) ∧
    ¬((scan_wallets_batch c4slots scanInit0).stats.total_checked =
        (scan_wallets_batch c4slots scanInit0).stats.total_generated -
          (scan_wallets_batch c4slots scanInit0).stats.errors) := by
  decide

/-- C5 (amended): a failed derivation is non-fatal — the candidate is
dropped (only successfully derived candidates are checked), generation of
subsequent candidates continues (total_generated counts every slot) — but
no error counter is incremented: STATS["errors"] is untouched by derivation
failures (it only counts exceptions raised while draining results, and
check_single_wallet cannot raise). -/
theorem derivation_failure_skips_and_continues (slots : List SlotInput) :
    (scan_wallets_batch slots scanInit0).stats.errors = 0 ∧
    (scan_wallets_batch slots scanInit0).stats.total_checked =
      (submittedOf slots).length ∧
    (scan_wallets_batch slots scanInit0).stats.total_generated = slots.length := by
  obtain ⟨hG, hE, hC, hFE, hFile⟩ := scan_batch_fields slots
  exact ⟨hE, hC, hG⟩

/-- C5 counterexample: in a two-slot batch whose first derivation fails and
whose second candidate is checked, the error counter ends at 0, not 1 — the
claimed per-failure increment does not happen, though the candidate was
dropped (checked = 1) and generation continued (generated = 2). -/
theorem derivation_failure_error_counter_unchanged :
    derivationFailures c5slots = 1 ∧
    (scan_wallets_batch c5slots scanInit0).stats.total_generated = 2 ∧
    (scan_wallets_batch c5slots scanInit0).stats.total_checked = 1 ∧
    (scan_wallets_batch c5slots scanInit0).stats.errors = 0 := by
  decide

/-- C6: derivation is deterministic — wallet_from_phrase is a pure function
of the phrase and index: its result does not depend on the process
nondeterminism (random stream, clock) in Env, for every implementation of
the external library functions, including every one on which the
hierarchical-derivation call fails and the fixed-length seed-prefix fallback
is taken (key_from_seed returning none), and including the
hdaccount-unavailable configuration. -/
theorem wallet_from_phrase_deterministic (libs : DerivationLibs)
    (env1 env2 : Env) (phrase : String) (index : ℕ) :
    wallet_from_phrase libs env1 phrase index =
      wallet_from_phrase libs env2 phrase index := rfl


/-- C8 (amended): in the program all FOUND persistence happens on the single
thread draining completed futures, so the appends are serialized: after a
batch from an empty store, hasil.json holds exactly the FOUND results, one
well-formed record per FOUND wallet, in drain order, none lost or
duplicated.  The read-append-rewrite primitive itself is not safe under
concurrently interleaved writers (see the counterexample). -/
theorem serialized_appends_keep_all_records (slots : List SlotInput) :
    (scan_wallets_batch slots scanInit0).foundFile =
      FileContent.jsonList (foundResults slots) :=
  (scan_batch_fields slots).2.2.2.2

/-- C8 counterexample: two concurrent append_to_results calls interleaved as
read, read, write, write — both writers run to completion, yet the store
ends with a single record: record 1 is lost, so two simultaneous persists do
not yield exactly two records. -/
theorem interleaved_appends_lose_record :
    (runSchedule
        [{ record := 1, snapshot := none, done := false },
         { record := 2, snapshot := none, done := false }]
        (FileContent.jsonList ([] : List ℕ))
        [.readStep 0, .readStep 1, .writeStep 0, .writeStep 1]).file =
      FileContent.jsonList [2] ∧
    ((runSchedule
        [{ record := 1, snapshot := none, done := false },
         { record := 2, snapshot := none, done := false }]
        (FileContent.jsonList ([] : List ℕ))
        [.readStep 0, .readStep 1, .writeStep 0, .writeStep 1]).writers.all
      fun w => w.done) = true ∧
    (load_json_file (runSchedule
        [{ record := 1, snapshot := none, done := false },
         { record := 2, snapshot := none, done := false }]
        (FileContent.jsonList ([] : List ℕ))
        [.readStep 0, .readStep 1, .writeStep 0, .writeStep 1]).file).length =
      1 := by
  decide

/-- C9 (amended): save_json_file catches every exception of its open/dump
body and only prints it, so append_to_results always returns normally — an
I/O failure is not surfaced to the caller: a failed open leaves the store
unchanged (the record is silently lost) and a failed dump after open leaves
the store truncated (malformed), in both cases with the same normal return
as success. -/
theorem append_never_raises {α : Type} (w : WriteOutcome) (c : FileContent α)
    (r : α) :
    (append_to_results_run w c r).2 = Except.ok () ∧
    (append_to_results_run WriteOutcome.openFailed c r).1 = c ∧
    (append_to_results_run WriteOutcome.dumpFailed c r).1 =
      FileContent.malformed := by
  cases w <;> exact ⟨rfl, rfl, rfl⟩

/-- C9 counterexample: an append whose underlying write fails (open raises)
returns exactly the same normal value as a successful append — Except.ok ()
with no error propagated — while the appended record is absent from the
store: the failure is silently swallowed, refuting the claim that a failed
append does not return as if it succeeded. -/
theorem failed_append_returns_ok :
    append_to_results_run WriteOutcome.openFailed
        (FileContent.jsonList ([] : List ℕ)) 7 =
      (FileContent.jsonList [], Except.ok ()) ∧
    (append_to_results_run WriteOutcome.openFailed
        (FileContent.jsonList ([] : List ℕ)) 7).2 =
      (append_to_results_run WriteOutcome.ok
        (FileContent.jsonList ([] : List ℕ)) 7).2 ∧
    load_json_file (append_to_results_run WriteOutcome.openFailed
        (FileContent.jsonList ([] : List ℕ)) 7).1 = [] := by
  exact ⟨rfl, rfl, rfl⟩

/-- C10: if a store file exists but holds malformed JSON or a JSON value
that is not a list, load_json_file degrades it to [] and the next append
rewrites the file to a list holding only the newly appended record — all
previously stored content is silently discarded; this holds for both the
FOUND store and the EMPTY store. -/
theorem append_resets_malformed_store {α : Type} (c c2 : FileContent α)
    (r e : α) (h : c = .malformed ∨ c = .jsonOther)
    (h2 : c2 = .malformed ∨ c2 = .jsonOther) :
    append_to_results c r = .jsonList [r] ∧
    append_to_empty_wallets c2 e = .jsonList [e] := by
  constructor
  · rcases h with rfl | rfl <;> rfl
  · rcases h2 with rfl | rfl <;> rfl

/-- C10 witness: appending record 5 to a malformed FOUND store and record 6
to a non-list EMPTY store leaves each file holding exactly the one new
record. -/
theorem append_resets_malformed_store_example :
    ((FileContent.malformed : FileContent ℕ) = .malformed ∨
      (FileContent.malformed : FileContent ℕ) = .jsonOther) ∧
    ((FileContent.jsonOther : FileContent ℕ) = .malformed ∨
      (FileContent.jsonOther : FileContent ℕ) = .jsonOther) ∧
    (append_to_results (FileContent.malformed : FileContent ℕ) 5 =
        .jsonList [5] ∧
      append_to_empty_wallets (FileContent.jsonOther : FileContent ℕ) 6 =
        .jsonList [6]) := by
  refine ⟨Or.inl rfl, Or.inr rfl, ?_⟩
  exact append_resets_malformed_store FileContent.malformed FileContent.jsonOther
    5 6 (Or.inl rfl) (Or.inr rfl)

end WalletGen
